import Mathlib

/- Verification development for the log-to-span pipeline of
`service-log-parsers/log_parser.py`.

The structural regex `log_pattern` is embedded as a deterministic matcher
over `List Char` that is extensionally equal to Python's backtracking
matching of that exact pattern (greedy quantifiers whose continuation
starts with a character disjoint from the quantified class are
deterministic; the only genuine backtracking, in the logger group
`([^\s]+(?:\s+[^\s]+)*)\s+-\s+`, is realised by `loggerLoop`, which
prefers the longest token extension before treating a `-` token as the
separator).  The word class `\w` is modelled exactly for all code points
below 0x100 (see `isWordChar`); `\s` and `\d` model the ASCII fragment of
Python's classes, which is exact on the inputs the theorems quantify
over.

Timestamp-to-epoch conversion (wall-clock dependent) is outside the
identifier/name/tag logic that the stated properties concern and is not
modelled; the raw timestamp text is kept in the record. -/

namespace ZipkinLog

/-- Strings are modelled as lists of characters. -/
abbrev Str := List Char

/-- ASCII fragment of Python's regex class `\d`. -/
def isDigitChar (c : Char) : Bool := c.isDigit

/-- ASCII fragment of Python's regex class `\s` (space, tab, newline,
carriage return, vertical tab, form feed). -/
def isSpaceChar (c : Char) : Bool :=
  c = ' ' || c = '\t' || c = '\n' || c = '\r' || c = '\x0b' || c = '\x0c'

/-- Python's regex class `\w`.  The source compiles `log_pattern` without
`re.ASCII`, so `\w` is the Unicode word class, strictly larger than
`[A-Za-z0-9_]`.  It is modelled exactly for every code point below 0x100
(checked against CPython's `re` character by character): the ASCII word
characters plus the Latin-1 word characters — the ordinal indicators and
micro sign, the superscript and vulgar-fraction numerics, and the accented
letters, excluding the multiplication and division signs.  Code points at
or above 0x100 are outside the modelled domain (the model answers false
where Python may answer true), and every theorem whose truth depends on
the extent of the word class restricts its inputs to characters below
0x100. -/
def isWordChar (c : Char) : Bool :=
  c.isAlpha || c.isDigit || c = '_' ||
  c.toNat = 0xAA || c.toNat = 0xB5 || c.toNat = 0xBA || c.toNat = 0xB9 ||
  (0xB2 ≤ c.toNat && c.toNat ≤ 0xB3) ||
  (0xBC ≤ c.toNat && c.toNat ≤ 0xBE) ||
  (0xC0 ≤ c.toNat && c.toNat ≤ 0xFF && c.toNat ≠ 0xD7 && c.toNat ≠ 0xF7)

/-- The character class `[A-Za-z0-9_]` as written in the claim about the
id segments, for comparison with the pattern's actual `\w`. -/
def inAsciiWordClass (c : Char) : Bool := c.isAlpha || c.isDigit || c = '_'

/-- The class `[a-zA-Z]` used by the operation-extraction search. -/
def isAlphaChar (c : Char) : Bool := c.isAlpha

/-- Negated single-character class such as `[^\]]` or `[^:]`. -/
def notChar (b : Char) (c : Char) : Bool := !(c == b)

/-- Match one literal character. -/
def expectChar (c : Char) : Str → Option Str
  | [] => none
  | a :: r => if a = c then some r else none

/-- Greedy one-or-more repetition of a character class (`X+`).  Returns the
maximal munch and the remainder; fails on an empty munch.  It models
`X+` followed by a continuation that can never consume a character of the
class, which makes Python's backtracking deterministic here. -/
def takeWhile1 (p : Char → Bool) : Str → Option (Str × Str)
  | [] => none
  | a :: l => if p a then some (a :: l.takeWhile p, l.dropWhile p) else none

/-- Match exactly `n` digits (`\d{n}`). -/
def takeDigits : Nat → Str → Option (Str × Str)
  | 0, l => some ([], l)
  | _ + 1, [] => none
  | n + 1, a :: l =>
    if isDigitChar a then
      match takeDigits n l with
      | none => none
      | some (d, r) => some (a :: d, r)
    else none

/-- Sequencing of partial matchers. -/
def obind : Option α → (α → Option β) → Option β
  | none, _ => none
  | some a, f => f a

@[simp] theorem obind_none (f : α → Option β) : obind none f = none := rfl

@[simp] theorem obind_some (a : α) (f : α → Option β) :
    obind (some a) f = f a := rfl

/-- Group 1 of `log_pattern`:
`(\d{4}-\d{2}-\d{2}/\d{2}:\d{2}:\d{2}\.\d{3})`. -/
def matchTimestamp (l : Str) : Option (Str × Str) :=
  obind (takeDigits 4 l) fun (y, r0) =>
  obind (expectChar '-' r0) fun r1 =>
  obind (takeDigits 2 r1) fun (mo, r2) =>
  obind (expectChar '-' r2) fun r3 =>
  obind (takeDigits 2 r3) fun (d, r4) =>
  obind (expectChar '/' r4) fun r5 =>
  obind (takeDigits 2 r5) fun (h, r6) =>
  obind (expectChar ':' r6) fun r7 =>
  obind (takeDigits 2 r7) fun (mi, r8) =>
  obind (expectChar ':' r8) fun r9 =>
  obind (takeDigits 2 r9) fun (s, r10) =>
  obind (expectChar '.' r10) fun r11 =>
  obind (takeDigits 3 r11) fun (ms, r12) =>
  some (y ++ '-' :: mo ++ '-' :: d ++ '/' :: h ++ ':' :: mi ++ ':' :: s ++ '.' :: ms, r12)

/-- Group 2 of `log_pattern`: `\[([^\]]+)\]` (thread name). -/
def matchThread (l : Str) : Option (Str × Str) :=
  obind (expectChar '[' l) fun r0 =>
  obind (takeWhile1 (notChar ']') r0) fun (th, r1) =>
  obind (expectChar ']' r1) fun r2 =>
  some (th, r2)

/-- A `\w+` munch followed by a literal non-word character `e`
(the fragments `(\w+):` and `(\w+)\]` of `log_pattern`). -/
def wordTok (e : Char) (l : Str) : Option (Str × Str) :=
  obind (takeWhile1 isWordChar l) fun (w, r0) =>
  obind (expectChar e r0) fun r1 =>
  some (w, r1)

/-- Groups 3-6 of `log_pattern`: `\[([^:]+):(\w+):(\w+):(\w+)\]`
(service context and the three id fields). -/
def matchContext (l : Str) : Option (Str × Str × Str × Str × Str) :=
  obind (expectChar '[' l) fun r0 =>
  obind (takeWhile1 (notChar ':') r0) fun (ctx, r1) =>
  obind (expectChar ':' r1) fun r2 =>
  obind (wordTok ':' r2) fun (i1, r3) =>
  obind (wordTok ':' r3) fun (i2, r4) =>
  obind (wordTok ']' r4) fun (i3, r5) =>
  some (ctx, i1, i2, i3, r5)

/-- The separator `\s+-\s+` between the logger name and the message. -/
def sepCheck (l : Str) : Option Str :=
  obind (takeWhile1 isSpaceChar l) fun (_, r0) =>
  obind (expectChar '-' r0) fun r1 =>
  obind (takeWhile1 isSpaceChar r1) fun (_, r2) =>
  some r2

/-- Backtracking loop for `(?:\s+[^\s]+)*\s+-\s+`: greedily extend the
logger capture with further whitespace-separated tokens, falling back to
matching the separator at the current position, exactly as Python's
greedy `*` does.  Each iteration consumes at least two characters, so
fuel equal to the remaining length never runs out before the input does. -/
def loggerLoop : Nat → Str → Str → Option (Str × Str)
  | 0, acc, r =>
    (match sepCheck r with
     | none => none
     | some rest => some (acc, rest))
  | fuel + 1, acc, r =>
    match
      (match takeWhile1 isSpaceChar r with
       | none => none
       | some (sp, r2) =>
         match takeWhile1 (fun c => !(isSpaceChar c)) r2 with
         | none => none
         | some (t, r3) => loggerLoop fuel (acc ++ sp ++ t) r3)
    with
    | some res => some res
    | none =>
      match sepCheck r with
      | none => none
      | some rest => some (acc, rest)

/-- Group 8 and the separator: `([^\s]+(?:\s+[^\s]+)*)\s+-\s+`. -/
def matchLoggerSep (l : Str) : Option (Str × Str) :=
  obind (takeWhile1 (fun c => !(isSpaceChar c)) l) fun (t1, r0) =>
  loggerLoop r0.length t1 r0

/-- The nine captures of `log_pattern`, in order. -/
structure LogGroups where
  ts : Str
  thread : Str
  ctx : Str
  id1 : Str
  id2 : Str
  id3 : Str
  level : Str
  logger : Str
  message : Str
deriving DecidableEq, Repr

/-- The complete `log_pattern.match(line)`.  The trailing `(.*)` capture
stops at a newline (Python `.`); `re.match` anchors at the start only, so
any remainder after the message is ignored. -/
def matchLogLine (l : Str) : Option LogGroups :=
  obind (matchTimestamp l) fun (ts, r0) =>
  obind (takeWhile1 isSpaceChar r0) fun (_, r1) =>
  obind (matchThread r1) fun (th, r2) =>
  obind (matchContext r2) fun (ctx, i1, i2, i3, r3) =>
  obind (takeWhile1 isSpaceChar r3) fun (_, r4) =>
  obind (takeWhile1 isWordChar r4) fun (lv, r5) =>
  obind (takeWhile1 isSpaceChar r5) fun (_, r6) =>
  obind (matchLoggerSep r6) fun (lg, r7) =>
  some ⟨ts, th, ctx, i1, i2, i3, lv, lg, List.takeWhile (notChar '\n') r7⟩

/-- Result of `parse_log_line` (the `parsed_data` dictionary): group 4 is
read as `trace_id`, group 5 as `parent_span_id` and group 6 as `span_id`
(source lines 111-113).  The raw timestamp text is kept; the epoch
conversion is not modelled (see the header comment). -/
structure LogRecord where
  timestamp : Str
  thread : Str
  service_context : Str
  trace_id : Str
  parent_span_id : Str
  span_id : Str
  level : Str
  logger : Str
  message : Str
deriving DecidableEq, Repr

/-- The function `parse_log_line`: `None` exactly when `log_pattern` does
not match. -/
def parse_log_line (l : Str) : Option LogRecord :=
  match matchLogLine l with
  | none => none
  | some g =>
    some { timestamp := g.ts, thread := g.thread, service_context := g.ctx,
           trace_id := g.id1, parent_span_id := g.id2, span_id := g.id3,
           level := g.level, logger := g.logger, message := g.message }

/-- The literal character set `'0123456789abcdefABCDEF'` used by the id
validation in `send_to_zipkin`. -/
def hexChars : Str := "0123456789abcdefABCDEF".toList

/-- Validity test applied to each id: length exactly 16 or 32 and all
characters in `hexChars` (source lines 165, 170, 177, negated). -/
def pyValidId (s : Str) : Bool :=
  (s.length == 16 || s.length == 32) && s.all (fun c => hexChars.contains c)

/-- The raw id triple extracted from a parsed line, before validation
(`parent_span_id` is an `Option` because `log_data.get` can in principle
yield `None`; from the parser it is always present). -/
structure RawIds where
  trace_id : Str
  span_id : Str
  parent_span_id : Option Str
deriving DecidableEq, Repr

/-- One pair of fresh identifiers, modelling the `uuid.uuid4().hex` draws
available to one `send_to_zipkin` call. -/
structure Fresh where
  freshTrace : Str
  freshSpan : Str
deriving DecidableEq, Repr

/-- The sixteen lowercase hex digits, the alphabet of `uuid.uuid4().hex`. -/
def lowerHexList : Str := "0123456789abcdef".toList

/-- A lowercase hex digit. -/
def isLowerHexChar (c : Char) : Bool := lowerHexList.contains c

/-- Shape of `uuid.uuid4().hex`: 32 lowercase hex characters. -/
def uuidHexShape (s : Str) : Bool :=
  (s.length == 32) && s.all isLowerHexChar

/-- The id validation/repair block of `send_to_zipkin`
(source lines 160-186).  Note the Python truthiness guards: an empty
`trace_id`/`span_id` is *not* replaced, and an empty or `'None'`
`parent_span_id` is treated as absent. -/
def normalizeIds (f : Fresh) (ids : RawIds) : RawIds :=
  let t := if !ids.trace_id.isEmpty && !(pyValidId ids.trace_id) then
             f.freshTrace else ids.trace_id
  let s := if !ids.span_id.isEmpty && !(pyValidId ids.span_id) then
             f.freshSpan else ids.span_id
  let p :=
    match ids.parent_span_id with
    | none => none
    | some q =>
      if !q.isEmpty && !(q == "None".toList) then
        (if !(pyValidId q) then none else some q)
      else none
  ⟨t, s, p⟩

/-- Python `str.split(sep)` for a one-character separator (keeps empty
parts, result is never empty). -/
def splitOnChar (sep : Char) : Str → List Str
  | [] => [[]]
  | c :: rest =>
    match splitOnChar sep rest with
    | [] => [[]]
    | g :: gs => if c == sep then [] :: g :: gs else (c :: g) :: gs

/-- Python `split(sep)[-1]`. -/
def lastPart (sep : Char) (l : Str) : Str :=
  (splitOnChar sep l).getLastD []

/-- Python `str.lower()` (ASCII). -/
def lowerStr (l : Str) : Str := l.map Char.toLower

/-- One attempt of `re.search(r'([a-zA-Z]+) operation', message)` at a
fixed start position: a maximal `[a-zA-Z]+` munch followed by the literal
`' operation'`.  Giving letters back cannot help, because the literal
starts with a space, so the greedy munch is deterministic. -/
def opSearchHere (l : Str) : Option Str :=
  match takeWhile1 isAlphaChar l with
  | none => none
  | some (w, r) => if (" operation".toList).isPrefixOf r then some w else none

/-- Leftmost search of `([a-zA-Z]+) operation` over the message. -/
def opSearch : Str → Option Str
  | [] => none
  | c :: rest =>
    match opSearchHere (c :: rest) with
    | some w => some w
    | none => opSearch rest

/-- Python's substring test `needle in haystack`. -/
def containsSub (needle : Str) : Str → Bool
  | [] => needle.isPrefixOf []
  | l@(_ :: rest) => needle.isPrefixOf l || containsSub needle rest

/-- Operation-name heuristic of `send_to_zipkin` (source lines 193-198):
default `'process'`; if `'operation'` occurs in the lowercased message,
try to extract the word before `' operation'`. -/
def extractOperation (message : Str) : Str :=
  if containsSub ("operation".toList) (lowerStr message) then
    match opSearch message with
    | some w => w
    | none => "process".toList
  else "process".toList

/-- Span-name derivation (source lines 189-206):
`"<last dot-segment of logger>.<operation>"`, plus, for a non-empty
thread, `" (<part of thread after the last hyphen>)"`. -/
def span_name_of (logger thread message : Str) : Str :=
  let ln := lastPart '.' logger
  let op := extractOperation message
  let base := ln ++ '.' :: op
  if thread.isEmpty then base
  else base ++ ' ' :: '(' :: (lastPart '-' thread ++ [')'])

/-- The `message` tag (source lines 228-231): kept whole under 256
characters, otherwise the first 253 characters plus `'...'`. -/
def messageTag (m : Str) : Str :=
  if m.length < 256 then m else m.take 253 ++ "...".toList

/-- The tag dictionary (source lines 220-231), in insertion order. -/
def buildTags (r : LogRecord) : List (Str × Str) :=
  [("thread".toList, r.thread),
   ("level".toList, r.level),
   ("logger".toList, r.logger),
   ("original_log_format".toList, r.service_context),
   ("message".toList, messageTag r.message)]

/-- The span assembled by `send_to_zipkin`: the repaired ids
(`ZipkinAttrs`), derived name, and tags. -/
structure Span where
  trace_id : Str
  span_id : Str
  parent_span_id : Option Str
  span_name : Str
  tags : List (Str × Str)
deriving DecidableEq, Repr

/-- The span-construction part of `send_to_zipkin` for one parsed record
(source lines 147-241). -/
def send_to_zipkin (f : Fresh) (r : LogRecord) : Span :=
  let ids := normalizeIds f ⟨r.trace_id, r.span_id, some r.parent_span_id⟩
  { trace_id := ids.trace_id
    span_id := ids.span_id
    parent_span_id := ids.parent_span_id
    span_name := span_name_of r.logger r.thread r.message
    tags := buildTags r }

/-- Outcome of the single `session.post` inside
`HttpTransportHandler.send`: an HTTP response with a status code, or a
network-level `requests` error. -/
inductive PostResult where
  | response (status : Nat)
  | networkError
deriving DecidableEq, Repr

/-- Observable effect of one `HttpTransportHandler.send` call:
whether an error was logged, whether a failure value was returned to the
caller, and whether an exception escaped the call. -/
structure SendEffect where
  errorLogged : Bool
  failureReturned : Bool
  raised : Bool
deriving DecidableEq, Repr

namespace HttpTransportHandler

/-- The `send` method (source lines 39-65): `response.raise_for_status()`
raises for status 400-599; that exception and any network error are
caught by `except requests.exceptions.RequestException`, logged, and
swallowed.  The method has no return statement and lets no exception
escape, so the caller never receives a failure value. -/
def send (pr : PostResult) : SendEffect :=
  match pr with
  | .response s =>
    if 400 ≤ s ∧ s ≤ 599 then ⟨true, false, false⟩ else ⟨false, false, false⟩
  | .networkError => ⟨true, false, false⟩

end HttpTransportHandler

/-- Final counters of one driver run. `spansEmitted` is the source's
`span_count`, incremented once per parsed line (source lines 267-271).
`errors` is modelled from the spec: section 4.5's per-run error counter;
the source driver keeps no such counter and only debug-logs skipped
lines, so the model counts the lines for which `parse_log_line` returned
`None`, which is what the driver skips. -/
structure RunSummary where
  spansEmitted : Nat
  errors : Nat
deriving DecidableEq, Repr

/-- The main loop (source lines 263-280): each line is parsed; a parsed
line is sent (`send_to_zipkin` swallows every exception internally) and
`span_count` is incremented regardless of the transport outcome; a
non-matching line is skipped and processing continues.  Each line is
paired with the transport outcome its emission would observe; the
counters do not depend on it, which is exactly the source behaviour. -/
def runDriver (f : Fresh) : List (Str × PostResult) → RunSummary
  | [] => ⟨0, 0⟩
  | (line, _) :: rest =>
    let s := runDriver f rest
    match parse_log_line line with
    | some _ => ⟨s.spansEmitted + 1, s.errors⟩
    | none => ⟨s.spansEmitted, s.errors + 1⟩

/- Auxiliary lemmas about the matcher primitives. -/

theorem obind_eq_some {α β : Type} {o : Option α} {k : α → Option β} {y : β} :
    obind o k = some y ↔ ∃ w, o = some w ∧ k w = some y := by
  cases o <;> simp [obind]

theorem takeWhile_append_of_all {p : Char → Bool} {xs : Str} {c : Char} {r : Str}
    (hall : ∀ x ∈ xs, p x = true) (hc : p c = false) :
    (xs ++ c :: r).takeWhile p = xs := by
  induction xs with
  | nil => simp [List.takeWhile_cons, hc]
  | cons a xs ih =>
    have ha := hall a (by simp)
    simp [List.takeWhile_cons, ha, ih (fun x hx => hall x (by simp [hx]))]

theorem dropWhile_append_of_all {p : Char → Bool} {xs : Str} {c : Char} {r : Str}
    (hall : ∀ x ∈ xs, p x = true) (hc : p c = false) :
    (xs ++ c :: r).dropWhile p = c :: r := by
  induction xs with
  | nil => simp [List.dropWhile_cons, hc]
  | cons a xs ih =>
    have ha := hall a (by simp)
    simp [List.dropWhile_cons, ha, ih (fun x hx => hall x (by simp [hx]))]

theorem takeWhile1_append_exact {p : Char → Bool} {u : Str} {c : Char} {r : Str}
    (hne : u ≠ []) (hall : ∀ x ∈ u, p x = true) (hc : p c = false) :
    takeWhile1 p (u ++ c :: r) = some (u, c :: r) := by
  match u, hne with
  | a :: xs, _ =>
    have ha := hall a (by simp)
    have hall' : ∀ x ∈ xs, p x = true := fun x hx => hall x (by simp [hx])
    simp [takeWhile1, ha, takeWhile_append_of_all hall' hc,
          dropWhile_append_of_all hall' hc]

theorem takeWhile1_sound {p : Char → Bool} {l t r : Str}
    (h : takeWhile1 p l = some (t, r)) :
    t ≠ [] ∧ ∀ x ∈ t, p x = true := by
  match l with
  | [] => simp [takeWhile1] at h
  | a :: l =>
    by_cases ha : p a
    · simp only [takeWhile1, if_pos ha, Option.some.injEq, Prod.mk.injEq] at h
      obtain ⟨ht, hr⟩ := h
      subst ht
      refine ⟨by simp, ?_⟩
      intro x hx
      rcases List.mem_cons.mp hx with h1 | h2
      · subst h1; exact ha
      · exact List.mem_takeWhile_imp h2
    · rw [takeWhile1, if_neg ha] at h
      cases h

theorem dropWhile_append_mem {p : Char → Bool} {l : Str} {b : Char} {t : Str}
    (hb : p b = false) :
    ∃ c r', (l ++ b :: t).dropWhile p = c :: r' ∧ p c = false ∧ (c ∈ l ∨ c = b) := by
  induction l with
  | nil => exact ⟨b, t, by simp [List.dropWhile_cons, hb], hb, Or.inr rfl⟩
  | cons a l ih =>
    by_cases ha : p a
    · obtain ⟨c, r', h1, h2, h3⟩ := ih
      refine ⟨c, r', by simp [List.dropWhile_cons, ha, h1], h2, ?_⟩
      rcases h3 with h | h
      · exact Or.inl (by simp [h])
      · exact Or.inr h
    · exact ⟨a, l ++ b :: t, by simp [List.dropWhile_cons, ha],
        by simpa using ha, Or.inl (by simp)⟩

theorem dropWhile_append_mem' {p : Char → Bool} {l v : Str}
    (hex : ∃ x ∈ l, p x = false) :
    ∃ c r', (l ++ v).dropWhile p = c :: r' ∧ p c = false ∧ c ∈ l := by
  induction l with
  | nil => simp at hex
  | cons a l ih =>
    by_cases ha : p a
    · obtain ⟨x, hx, hxp⟩ := hex
      have hx' : x ∈ l := by
        rcases List.mem_cons.mp hx with h | h
        · subst h; rw [ha] at hxp; cases hxp
        · exact h
      obtain ⟨c, r', h1, h2, h3⟩ := ih ⟨x, hx', hxp⟩
      exact ⟨c, r', by simp [List.dropWhile_cons, ha, h1], h2, by simp [h3]⟩
    · exact ⟨a, l ++ v, by simp [List.dropWhile_cons, ha],
        by simpa using ha, by simp⟩

theorem expectChar_cons_self {c : Char} {r : Str} :
    expectChar c (c :: r) = some r := by
  simp [expectChar]

theorem expectChar_cons_ne {a c : Char} {r : Str} (h : a ≠ c) :
    expectChar c (a :: r) = none := by
  simp [expectChar, h]

theorem takeDigits_exact {n : Nat} {ds r : Str} (hl : ds.length = n)
    (hall : ∀ x ∈ ds, isDigitChar x = true) :
    takeDigits n (ds ++ r) = some (ds, r) := by
  subst hl
  induction ds with
  | nil => simp [takeDigits]
  | cons a ds ih =>
    have ha := hall a (by simp)
    simp [takeDigits, ha, ih (fun x hx => hall x (by simp [hx]))]

theorem wordTok_exact {s t : Str} {e : Char} (hne : s ≠ [])
    (hall : ∀ x ∈ s, isWordChar x = true) (he : isWordChar e = false) :
    wordTok e (s ++ e :: t) = some (s, t) := by
  simp [wordTok, takeWhile1_append_exact hne hall he, expectChar_cons_self]

theorem wordTok_none_of_stop {s t : Str} {e b : Char}
    (hs : ∀ x ∈ s, x ≠ e) (hb : isWordChar b = false) (hbe : b ≠ e) :
    wordTok e (s ++ b :: t) = none := by
  match s with
  | [] => simp [wordTok, takeWhile1, hb]
  | a :: s' =>
    by_cases ha : isWordChar a
    · obtain ⟨c, r', h1, h2, h3⟩ :=
        dropWhile_append_mem (p := isWordChar) (l := s') (b := b) (t := t) hb
      have hce : c ≠ e := by
        rcases h3 with h | h
        · exact hs c (by simp [h])
        · subst h; exact hbe
      simp [wordTok, takeWhile1, ha, h1, expectChar_cons_ne hce]
    · simp [wordTok, takeWhile1, ha]

theorem wordTok_none_bad {s t : Str} {e : Char}
    (hs : ∀ x ∈ s, x ≠ e) (he : isWordChar e = false)
    (hbad : s = [] ∨ ∃ x ∈ s, isWordChar x = false) :
    wordTok e (s ++ e :: t) = none := by
  rcases hbad with rfl | ⟨x, hx, hxw⟩
  · simp [wordTok, takeWhile1, he]
  · match s, hs, hx with
    | a :: s', hs, hx =>
      by_cases ha : isWordChar a
      · have hx' : x ∈ s' := by
          rcases List.mem_cons.mp hx with h | h
          · subst h; rw [ha] at hxw; cases hxw
          · exact h
        obtain ⟨c, r', h1, h2, h3⟩ :=
          dropWhile_append_mem' (p := isWordChar) (l := s') (v := e :: t)
            ⟨x, hx', hxw⟩
        have hce : c ≠ e := hs c (by simp [h3])
        simp [wordTok, takeWhile1, ha, h1, expectChar_cons_ne hce]
      · simp [wordTok, takeWhile1, ha]

/-- Shape of a timestamp accepted by group 1 of the pattern. -/
def TsShape (ts : Str) : Prop :=
  ∃ y mo d h mi s ms : Str,
    y.length = 4 ∧ mo.length = 2 ∧ d.length = 2 ∧ h.length = 2 ∧
    mi.length = 2 ∧ s.length = 2 ∧ ms.length = 3 ∧
    (∀ x ∈ y ++ mo ++ d ++ h ++ mi ++ s ++ ms, isDigitChar x = true) ∧
    ts = y ++ '-' :: mo ++ '-' :: d ++ '/' :: h ++ ':' :: mi ++ ':' :: s ++ '.' :: ms

theorem matchTimestamp_exact {ts : Str} (hts : TsShape ts) (X : Str) :
    matchTimestamp (ts ++ X) = some (ts, X) := by
  obtain ⟨y, mo, d, h, mi, s, ms, l1, l2, l3, l4, l5, l6, l7, hdig, rfl⟩ := hts
  have hy : ∀ x ∈ y, isDigitChar x = true := fun x hx => hdig x (by simp [hx])
  have hmo : ∀ x ∈ mo, isDigitChar x = true := fun x hx => hdig x (by simp [hx])
  have hd : ∀ x ∈ d, isDigitChar x = true := fun x hx => hdig x (by simp [hx])
  have hh : ∀ x ∈ h, isDigitChar x = true := fun x hx => hdig x (by simp [hx])
  have hmi : ∀ x ∈ mi, isDigitChar x = true := fun x hx => hdig x (by simp [hx])
  have hs : ∀ x ∈ s, isDigitChar x = true := fun x hx => hdig x (by simp [hx])
  have hms : ∀ x ∈ ms, isDigitChar x = true := fun x hx => hdig x (by simp [hx])
  simp only [List.cons_append, List.append_assoc]
  simp only [matchTimestamp, takeDigits_exact l1 hy, obind_some,
    takeDigits_exact l2 hmo, takeDigits_exact l3 hd, takeDigits_exact l4 hh,
    takeDigits_exact l5 hmi, takeDigits_exact l6 hs, takeDigits_exact l7 hms,
    expectChar_cons_self]
  simp [List.append_assoc]

theorem matchThread_exact {th r : Str} (hne : th ≠ [])
    (hth : ∀ x ∈ th, x ≠ ']') :
    matchThread ('[' :: th ++ ']' :: r) = some (th, r) := by
  have hall : ∀ x ∈ th, notChar ']' x = true := fun x hx => by
    simp [notChar, hth x hx]
  have hcl : notChar ']' ']' = false := by simp [notChar]
  simp [matchThread, expectChar_cons_self, takeWhile1_append_exact hne hall hcl]

theorem matchContext_2seg_none {c s z : Str}
    (hc : ∀ x ∈ c, x ≠ ':') (hs1 : ∀ x ∈ s, x ≠ ':') :
    matchContext ('[' :: c ++ ':' :: s ++ ']' :: z) = none := by
  have h2 := wordTok_none_of_stop (s := s) (t := z) (e := ':') (b := ']')
    hs1 (by decide) (by decide)
  match c, hc with
  | [], _ => simp [matchContext, expectChar_cons_self, takeWhile1, notChar]
  | a :: c', hc =>
    have hall : ∀ x ∈ a :: c', notChar ':' x = true := fun x hx => by
      simp [notChar, hc x hx]
    have hctx := takeWhile1_append_exact (p := notChar ':') (u := a :: c')
      (c := ':') (r := s ++ ']' :: z) (by simp) hall (by simp [notChar])
    simp only [List.cons_append] at hctx
    simp [matchContext, expectChar_cons_self, hctx, h2]

theorem matchContext_3seg_none {c s1 s2 z : Str}
    (hc : ∀ x ∈ c, x ≠ ':') (h1 : ∀ x ∈ s1, x ≠ ':') (h2 : ∀ x ∈ s2, x ≠ ':') :
    matchContext ('[' :: c ++ ':' :: s1 ++ ':' :: s2 ++ ']' :: z) = none := by
  have hw2 := wordTok_none_of_stop (s := s2) (t := z) (e := ':') (b := ']')
    h2 (by decide) (by decide)
  match c, hc with
  | [], _ => simp [matchContext, expectChar_cons_self, takeWhile1, notChar]
  | a :: c', hc =>
    have hall : ∀ x ∈ a :: c', notChar ':' x = true := fun x hx => by
      simp [notChar, hc x hx]
    have hctx := takeWhile1_append_exact (p := notChar ':') (u := a :: c')
      (c := ':') (r := s1 ++ ':' :: s2 ++ ']' :: z)
      (by simp) hall (by simp [notChar])
    simp only [List.cons_append, List.append_assoc] at hctx
    by_cases hq : s1 ≠ [] ∧ ∀ x ∈ s1, isWordChar x = true
    · have hw1 := wordTok_exact (t := s2 ++ ']' :: z) hq.1 hq.2
        (e := ':') (by decide)
      simp only [List.cons_append, List.append_assoc] at hw1
      simp [matchContext, expectChar_cons_self, hctx, hw1, hw2]
    · have hbad : s1 = [] ∨ ∃ x ∈ s1, isWordChar x = false := by
        by_cases hn : s1 = []
        · exact Or.inl hn
        · push_neg at hq
          obtain ⟨x, hx, hxw⟩ := hq hn
          exact Or.inr ⟨x, hx, by simpa using hxw⟩
      have hw1 := wordTok_none_bad (t := s2 ++ ']' :: z) h1 (by decide) hbad
      simp only [List.cons_append, List.append_assoc] at hw1
      simp [matchContext, expectChar_cons_self, hctx, hw1]

theorem matchContext_4seg_bad_none {c s1 s2 s3 z : Str}
    (hc : ∀ x ∈ c, x ≠ ':')
    (h1 : ∀ x ∈ s1, x ≠ ':') (h2 : ∀ x ∈ s2, x ≠ ':')
    (h3 : ∀ x ∈ s3, x ≠ ']')
    (hbad : (s1 = [] ∨ ∃ x ∈ s1, isWordChar x = false) ∨
            (s2 = [] ∨ ∃ x ∈ s2, isWordChar x = false) ∨
            (s3 = [] ∨ ∃ x ∈ s3, isWordChar x = false)) :
    matchContext ('[' :: c ++ ':' :: s1 ++ ':' :: s2 ++ ':' :: s3 ++ ']' :: z)
      = none := by
  match c, hc with
  | [], _ => simp [matchContext, expectChar_cons_self, takeWhile1, notChar]
  | a :: c', hc =>
    have hall : ∀ x ∈ a :: c', notChar ':' x = true := fun x hx => by
      simp [notChar, hc x hx]
    have hctx := takeWhile1_append_exact (p := notChar ':')
      (u := a :: c') (c := ':')
      (r := s1 ++ ':' :: s2 ++ ':' :: s3 ++ ']' :: z)
      (by simp) hall (by simp [notChar])
    simp only [List.cons_append, List.append_assoc] at hctx
    by_cases q1 : s1 ≠ [] ∧ ∀ x ∈ s1, isWordChar x = true
    · have hw1 := wordTok_exact (t := s2 ++ ':' :: s3 ++ ']' :: z) q1.1 q1.2
        (e := ':') (by decide)
      simp only [List.cons_append, List.append_assoc] at hw1
      by_cases q2 : s2 ≠ [] ∧ ∀ x ∈ s2, isWordChar x = true
      · have hw2 := wordTok_exact (t := s3 ++ ']' :: z) q2.1 q2.2
          (e := ':') (by decide)
        simp only [List.cons_append, List.append_assoc] at hw2
        have hbad3 : s3 = [] ∨ ∃ x ∈ s3, isWordChar x = false := by
          rcases hbad with hb | hb | hb
          · rcases hb with hb | ⟨x, hx, hxw⟩
            · exact absurd hb q1.1
            · rw [q1.2 x hx] at hxw; cases hxw
          · rcases hb with hb | ⟨x, hx, hxw⟩
            · exact absurd hb q2.1
            · rw [q2.2 x hx] at hxw; cases hxw
          · exact hb
        have hw3 := wordTok_none_bad (t := z) h3 (by decide) hbad3
        simp [matchContext, expectChar_cons_self, hctx, hw1, hw2, hw3]
      · have hbad2 : s2 = [] ∨ ∃ x ∈ s2, isWordChar x = false := by
          by_cases hn : s2 = []
          · exact Or.inl hn
          · push_neg at q2
            obtain ⟨x, hx, hxw⟩ := q2 hn
            exact Or.inr ⟨x, hx, by simpa using hxw⟩
        have hw2 := wordTok_none_bad (t := s3 ++ ']' :: z) h2 (by decide) hbad2
        simp only [List.cons_append, List.append_assoc] at hw2
        simp [matchContext, expectChar_cons_self, hctx, hw1, hw2]
    · have hbad1 : s1 = [] ∨ ∃ x ∈ s1, isWordChar x = false := by
        by_cases hn : s1 = []
        · exact Or.inl hn
        · push_neg at q1
          obtain ⟨x, hx, hxw⟩ := q1 hn
          exact Or.inr ⟨x, hx, by simpa using hxw⟩
      have hw1 := wordTok_none_bad (t := s2 ++ ':' :: s3 ++ ']' :: z) h1
        (by decide) hbad1
      simp only [List.cons_append, List.append_assoc] at hw1
      simp [matchContext, expectChar_cons_self, hctx, hw1]

/-- When the timestamp, whitespace and thread stages succeed and the
context stage fails, the whole pattern fails. -/
theorem matchLogLine_ctx_none {ts sp th cp : Str}
    (hts : TsShape ts) (hspne : sp ≠ []) (hsp : ∀ x ∈ sp, isSpaceChar x = true)
    (hthne : th ≠ []) (hth : ∀ x ∈ th, x ≠ ']')
    (hcp : matchContext cp = none) :
    matchLogLine (ts ++ sp ++ '[' :: th ++ ']' :: cp) = none := by
  have h1 := matchTimestamp_exact hts (sp ++ '[' :: th ++ ']' :: cp)
  have h2 := takeWhile1_append_exact (p := isSpaceChar) (c := '[')
    (r := th ++ ']' :: cp) hspne hsp (by decide)
  have h3 := matchThread_exact (r := cp) hthne hth
  simp only [List.cons_append, List.append_assoc] at h1 h2 h3
  simp [matchLogLine, h1, h2, h3, hcp]

/- Soundness of the matcher: captured id groups are non-empty `\w` runs. -/

theorem wordTok_sound {e : Char} {l w r : Str} (h : wordTok e l = some (w, r)) :
    w ≠ [] ∧ ∀ x ∈ w, isWordChar x = true := by
  simp only [wordTok, obind_eq_some, Prod.exists, Option.some.injEq,
    Prod.mk.injEq] at h
  obtain ⟨w', r', h1, r'', h2, hw, hr⟩ := h
  subst hw
  exact takeWhile1_sound h1

theorem matchContext_sound {l ctx i1 i2 i3 r : Str}
    (h : matchContext l = some (ctx, i1, i2, i3, r)) :
    (i1 ≠ [] ∧ ∀ x ∈ i1, isWordChar x = true) ∧
    (i2 ≠ [] ∧ ∀ x ∈ i2, isWordChar x = true) ∧
    (i3 ≠ [] ∧ ∀ x ∈ i3, isWordChar x = true) := by
  simp only [matchContext, obind_eq_some, Prod.exists, Option.some.injEq,
    Prod.mk.injEq] at h
  obtain ⟨r0, h0, c', r1, h1, r2, h2, w1, r3, hw1, w2, r4, hw2, w3, r5, hw3,
    hc, hi1, hi2, hi3, hr⟩ := h
  subst hi1; subst hi2; subst hi3
  exact ⟨wordTok_sound hw1, wordTok_sound hw2, wordTok_sound hw3⟩

theorem matchLogLine_sound {l : Str} {g : LogGroups}
    (h : matchLogLine l = some g) :
    (g.id1 ≠ [] ∧ ∀ x ∈ g.id1, isWordChar x = true) ∧
    (g.id2 ≠ [] ∧ ∀ x ∈ g.id2, isWordChar x = true) ∧
    (g.id3 ≠ [] ∧ ∀ x ∈ g.id3, isWordChar x = true) := by
  simp only [matchLogLine, obind_eq_some, Prod.exists, Option.some.injEq] at h
  obtain ⟨ts, r0, hts, sp, r1, hsp, th, r2, hth, ctx, i1, i2, i3, r3, hctx,
    sp2, r4, hsp2, lv, r5, hlv, sp3, r6, hsp3, lg, r7, hlg, hgroups⟩ := h
  have hctx' := matchContext_sound hctx
  cases g
  simp only [LogGroups.mk.injEq] at hgroups
  obtain ⟨-, -, -, h1, h2, h3, -, -, -⟩ := hgroups
  subst h1; subst h2; subst h3
  exact hctx'

theorem parse_log_line_sound {l : Str} {rec : LogRecord}
    (h : parse_log_line l = some rec) :
    (rec.trace_id ≠ [] ∧ ∀ x ∈ rec.trace_id, isWordChar x = true) ∧
    (rec.parent_span_id ≠ [] ∧ ∀ x ∈ rec.parent_span_id, isWordChar x = true) ∧
    (rec.span_id ≠ [] ∧ ∀ x ∈ rec.span_id, isWordChar x = true) := by
  rw [parse_log_line] at h
  cases hm : matchLogLine l with
  | none => rw [hm] at h; cases h
  | some g =>
    rw [hm] at h
    simp only [Option.some.injEq] at h
    subst h
    exact matchLogLine_sound hm

/- Facts about the id validation. -/

theorem pyValidId_length {s : Str} (h : pyValidId s = true) :
    s.length = 16 ∨ s.length = 32 := by
  simp only [pyValidId, Bool.and_eq_true, Bool.or_eq_true, beq_iff_eq] at h
  exact h.1

theorem pyValidId_ne_nil {s : Str} (h : pyValidId s = true) : s ≠ [] := by
  intro hn
  subst hn
  rcases pyValidId_length h with h' | h' <;> cases h'

theorem pyValidId_ne_noneLit {s : Str} (h : pyValidId s = true) :
    s ≠ "None".toList := by
  intro hn
  rcases pyValidId_length h with h' | h' <;>
    (rw [hn] at h'; exact absurd h' (by decide))

theorem lowerHex_mem_hexChars {c : Char} (h : isLowerHexChar c = true) :
    hexChars.contains c = true := by
  have hall : lowerHexList.all (fun x => hexChars.contains x) = true := by
    decide
  have hmem : c ∈ lowerHexList := by simpa [isLowerHexChar] using h
  exact List.all_eq_true.mp hall c hmem

theorem uuidHexShape_valid {s : Str} (h : uuidHexShape s = true) :
    pyValidId s = true := by
  simp only [uuidHexShape, Bool.and_eq_true, beq_iff_eq, List.all_eq_true] at h
  simp only [pyValidId, Bool.and_eq_true, Bool.or_eq_true, beq_iff_eq,
    List.all_eq_true]
  exact ⟨Or.inr h.1, fun x hx => lowerHex_mem_hexChars (h.2 x hx)⟩

/- Field-level behaviour of the id validation/repair. -/

theorem normalizeIds_trace_of_valid {f : Fresh} {ids : RawIds}
    (hv : pyValidId ids.trace_id = true) :
    (normalizeIds f ids).trace_id = ids.trace_id := by
  simp [normalizeIds, hv]

theorem normalizeIds_trace_of_nil {f : Fresh} {ids : RawIds}
    (hn : ids.trace_id = []) :
    (normalizeIds f ids).trace_id = ids.trace_id := by
  simp [normalizeIds, hn]

theorem normalizeIds_trace_invalid {f : Fresh} {ids : RawIds}
    (hne : ids.trace_id ≠ []) (hv : pyValidId ids.trace_id = false) :
    (normalizeIds f ids).trace_id = f.freshTrace := by
  have e1 : ids.trace_id.isEmpty = false := by
    simpa [List.isEmpty_iff] using hne
  simp [normalizeIds, e1, hv]

theorem normalizeIds_span_of_valid {f : Fresh} {ids : RawIds}
    (hv : pyValidId ids.span_id = true) :
    (normalizeIds f ids).span_id = ids.span_id := by
  simp [normalizeIds, hv]

theorem normalizeIds_span_of_nil {f : Fresh} {ids : RawIds}
    (hn : ids.span_id = []) :
    (normalizeIds f ids).span_id = ids.span_id := by
  simp [normalizeIds, hn]

theorem normalizeIds_span_invalid {f : Fresh} {ids : RawIds}
    (hne : ids.span_id ≠ []) (hv : pyValidId ids.span_id = false) :
    (normalizeIds f ids).span_id = f.freshSpan := by
  have e1 : ids.span_id.isEmpty = false := by
    simpa [List.isEmpty_iff] using hne
  simp [normalizeIds, e1, hv]

theorem normalizeIds_parent_none (f : Fresh) (ids : RawIds)
    (hq : ids.parent_span_id = none) :
    (normalizeIds f ids).parent_span_id = none := by
  simp [normalizeIds, hq]

theorem normalizeIds_parent_eq (f : Fresh) (ids : RawIds) (q : Str)
    (hq : ids.parent_span_id = some q) :
    (normalizeIds f ids).parent_span_id
      = if pyValidId q = true then some q else none := by
  by_cases h1 : q = []
  · subst h1
    have : pyValidId ([] : Str) = false := by decide
    simp [normalizeIds, hq, this]
  · by_cases h2 : q = "None".toList
    · subst h2
      simp [normalizeIds, hq]
      decide
    · have e1 : q.isEmpty = false := by simpa [List.isEmpty_iff] using h1
      have h2' : q ≠ (['N', 'o', 'n', 'e'] : Str) := h2
      by_cases h3 : pyValidId q = true
      · simp [normalizeIds, hq, e1, h2', h3]
      · simp only [Bool.not_eq_true] at h3
        simp [normalizeIds, hq, e1, h2', h3]

theorem normalizeIds_trace_stable {g : Fresh} {ids : RawIds}
    (h : pyValidId ids.trace_id = true ∨ ids.trace_id = []) :
    (normalizeIds g ids).trace_id = ids.trace_id := by
  rcases h with h | h
  · exact normalizeIds_trace_of_valid h
  · exact normalizeIds_trace_of_nil h

theorem normalizeIds_span_stable {g : Fresh} {ids : RawIds}
    (h : pyValidId ids.span_id = true ∨ ids.span_id = []) :
    (normalizeIds g ids).span_id = ids.span_id := by
  rcases h with h | h
  · exact normalizeIds_span_of_valid h
  · exact normalizeIds_span_of_nil h

theorem normalizeIds_parent_stable {g : Fresh} {ids : RawIds}
    (h : ids.parent_span_id = none ∨
         ∃ q, ids.parent_span_id = some q ∧ pyValidId q = true) :
    (normalizeIds g ids).parent_span_id = ids.parent_span_id := by
  rcases h with h | ⟨q, h, hq⟩
  · rw [normalizeIds_parent_none g ids h, h]
  · rw [normalizeIds_parent_eq g ids q h, if_pos hq, h]

theorem RawIds.ext' {a b : RawIds} (h1 : a.trace_id = b.trace_id)
    (h2 : a.span_id = b.span_id) (h3 : a.parent_span_id = b.parent_span_id) :
    a = b := by
  cases a; cases b; simp_all

/-- Constraint the spec states for `SpanIdentifiers` fields, following the
spec's words (section 3): exactly 16 or 32 lowercase-hex characters.
Stated separately from `pyValidId` (the source's check) so the two can be
compared. -/
def specLowerHexOk (s : Str) : Bool :=
  (s.length == 16 || s.length == 32) && s.all isLowerHexChar

/- Concrete values used by counterexamples and witnesses. -/

/-- A fixed pair of fresh identifiers of the exact `uuid4().hex` shape. -/
def fresh0 : Fresh :=
  ⟨"aaaaaaaaaaaaaaaaaaaaaaaaaaaaaaaa".toList,
   "bbbbbbbbbbbbbbbbbbbbbbbbbbbbbbbb".toList⟩

/-- C2: for every invalid traceId or spanId the repair replaces the field
with a fresh 32-lowercase-hex identifier different from, and independent
of, the invalid input.  Amended: this holds for every NON-EMPTY invalid
id; the Python truthiness guard `if trace_id and (...)` keeps an empty
string unchanged. -/
theorem c2_invalid_id_regenerated (f : Fresh) (ids : RawIds)
    (hft : uuidHexShape f.freshTrace = true)
    (hfs : uuidHexShape f.freshSpan = true) :
    (ids.trace_id ≠ [] → pyValidId ids.trace_id = false →
      (normalizeIds f ids).trace_id = f.freshTrace ∧
      uuidHexShape (normalizeIds f ids).trace_id = true ∧
      (normalizeIds f ids).trace_id ≠ ids.trace_id) ∧
    (ids.span_id ≠ [] → pyValidId ids.span_id = false →
      (normalizeIds f ids).span_id = f.freshSpan ∧
      uuidHexShape (normalizeIds f ids).span_id = true ∧
      (normalizeIds f ids).span_id ≠ ids.span_id) := by
  constructor
  · intro hne hv
    have ht := normalizeIds_trace_invalid (f := f) hne hv
    refine ⟨ht, by rw [ht]; exact hft, ?_⟩
    rw [ht]
    intro heq
    rw [← heq] at hv
    rw [uuidHexShape_valid hft] at hv
    cases hv
  · intro hne hv
    have ht := normalizeIds_span_invalid (f := f) hne hv
    refine ⟨ht, by rw [ht]; exact hfs, ?_⟩
    rw [ht]
    intro heq
    rw [← heq] at hv
    rw [uuidHexShape_valid hfs] at hv
    cases hv

/-- C2 counterexample: the claim quantifies over every invalid id string,
but the empty string (length 0, not 16 or 32) is kept verbatim by the
truthiness guard, so the output does contain that invalid string. -/
theorem c2_counterexample :
    pyValidId ([] : Str) = false ∧
    (normalizeIds fresh0
        ⟨[], "00f067aa0ba902b7".toList, none⟩).trace_id = [] := by
  exact ⟨by decide, by decide⟩

/-- C2 witness: scenario 3 of the spec, a trace id `"xyz"`. -/
theorem c2_witness :
    (normalizeIds fresh0
        ⟨"xyz".toList, "00f067aa0ba902b7".toList, none⟩).trace_id
      = fresh0.freshTrace ∧
    uuidHexShape (normalizeIds fresh0
        ⟨"xyz".toList, "00f067aa0ba902b7".toList, none⟩).trace_id = true ∧
    (normalizeIds fresh0
        ⟨"xyz".toList, "00f067aa0ba902b7".toList, none⟩).trace_id
      ≠ "xyz".toList := by
  exact (c2_invalid_id_regenerated fresh0
    ⟨"xyz".toList, "00f067aa0ba902b7".toList, none⟩
    (by decide) (by decide)).1 (by decide) (by decide)

/-- C3: a parentSpanId equal to `'None'` or empty (or absent) is treated
as absent; a present but invalid parent is dropped, never regenerated;
a valid parent is kept; the output parent is always either absent or the
unchanged input. -/
theorem c3_parent_policy (f : Fresh) (ids : RawIds) :
    ((ids.parent_span_id = none ∨ ids.parent_span_id = some [] ∨
      ids.parent_span_id = some ("None".toList)) →
        (normalizeIds f ids).parent_span_id = none) ∧
    (∀ q, ids.parent_span_id = some q → pyValidId q = false →
        (normalizeIds f ids).parent_span_id = none) ∧
    (∀ q, ids.parent_span_id = some q → pyValidId q = true →
        (normalizeIds f ids).parent_span_id = some q) ∧
    ((normalizeIds f ids).parent_span_id = none ∨
     (normalizeIds f ids).parent_span_id = ids.parent_span_id) := by
  refine ⟨?_, ?_, ?_, ?_⟩
  · rintro (h | h | h)
    · exact normalizeIds_parent_none f ids h
    · rw [normalizeIds_parent_eq f ids [] h]
      decide
    · rw [normalizeIds_parent_eq f ids ("None".toList) h]
      decide
  · intro q hq hv
    rw [normalizeIds_parent_eq f ids q hq, hv]
    simp
  · intro q hq hv
    rw [normalizeIds_parent_eq f ids q hq, if_pos hv]
  · cases hq : ids.parent_span_id with
    | none => exact Or.inl (normalizeIds_parent_none f ids hq)
    | some q =>
      rw [normalizeIds_parent_eq f ids q hq]
      by_cases hv : pyValidId q = true
      · rw [if_pos hv]; exact Or.inr rfl
      · rw [if_neg hv]; exact Or.inl rfl

/-- C3 witness: the literal `'None'` parent is treated as absent, an
invalid parent `'zzz'` is dropped, and a valid 16-hex parent is kept. -/
theorem c3_witness :
    (normalizeIds fresh0
        ⟨"4bf92f3577b34da6a3ce929d0e0e4736".toList,
         "00f067aa0ba902b8".toList, some ("None".toList)⟩).parent_span_id
      = none ∧
    (normalizeIds fresh0
        ⟨"4bf92f3577b34da6a3ce929d0e0e4736".toList,
         "00f067aa0ba902b8".toList, some ("zzz".toList)⟩).parent_span_id
      = none ∧
    (normalizeIds fresh0
        ⟨"4bf92f3577b34da6a3ce929d0e0e4736".toList,
         "00f067aa0ba902b8".toList,
         some ("00f067aa0ba902b7".toList)⟩).parent_span_id
      = some ("00f067aa0ba902b7".toList) := by
  refine ⟨?_, ?_, ?_⟩
  · exact (c3_parent_policy fresh0 _).1 (Or.inr (Or.inr rfl))
  · exact (c3_parent_policy fresh0 _).2.1 ("zzz".toList) rfl (by decide)
  · exact (c3_parent_policy fresh0 _).2.2.1 ("00f067aa0ba902b7".toList) rfl
      (by decide)

/-- An uppercase 16-hex string: accepted by the source's case-insensitive
check, but not lowercase as the spec's invariant demands. -/
def upperId : Str := "ABCDEF00ABCDEF00".toList

/-- C4 counterexample: the claimed invariant says every present output
field is 16 or 32 LOWERCASE-hex.  An uppercase 16-hex input trace id is
accepted unchanged (the source check is case-insensitive), and an empty
trace id is kept with length 0; both outputs violate the stated
constraint. -/
theorem c4_counterexample :
    ((normalizeIds fresh0
        ⟨upperId, "00f067aa0ba902b7".toList, none⟩).trace_id = upperId ∧
      specLowerHexOk upperId = false) ∧
    ((normalizeIds fresh0
        ⟨[], "00f067aa0ba902b7".toList, none⟩).trace_id = [] ∧
      specLowerHexOk [] = false) := by
  exact ⟨⟨by decide, by decide⟩, ⟨by decide, by decide⟩⟩

/-- C4 (amended): for non-empty input traceId and spanId (and fresh ids of
the generator's shape), every present field of the output satisfies the
SOURCE constraint: length 16 or 32 and hex in either case. -/
theorem c4_normalized_ids_valid (f : Fresh) (ids : RawIds)
    (hft : pyValidId f.freshTrace = true) (hfs : pyValidId f.freshSpan = true)
    (ht : ids.trace_id ≠ []) (hs : ids.span_id ≠ []) :
    pyValidId (normalizeIds f ids).trace_id = true ∧
    pyValidId (normalizeIds f ids).span_id = true ∧
    ∀ q, (normalizeIds f ids).parent_span_id = some q →
      pyValidId q = true := by
  refine ⟨?_, ?_, ?_⟩
  · by_cases hv : pyValidId ids.trace_id = true
    · rw [normalizeIds_trace_of_valid hv]; exact hv
    · rw [normalizeIds_trace_invalid ht (by simpa using hv)]; exact hft
  · by_cases hv : pyValidId ids.span_id = true
    · rw [normalizeIds_span_of_valid hv]; exact hv
    · rw [normalizeIds_span_invalid hs (by simpa using hv)]; exact hfs
  · intro q hq
    cases hp : ids.parent_span_id with
    | none => rw [normalizeIds_parent_none f ids hp] at hq; cases hq
    | some p =>
      rw [normalizeIds_parent_eq f ids p hp] at hq
      by_cases hv : pyValidId p = true
      · rw [if_pos hv] at hq
        cases hq
        exact hv
      · rw [if_neg hv] at hq
        cases hq

/-- C4 witness: a concrete run of the amended invariant. -/
theorem c4_witness :
    pyValidId (normalizeIds fresh0
      ⟨"xyz".toList, "00f067aa0ba902b8".toList,
       some ("00f067aa0ba902b7".toList)⟩).trace_id = true ∧
    pyValidId (normalizeIds fresh0
      ⟨"xyz".toList, "00f067aa0ba902b8".toList,
       some ("00f067aa0ba902b7".toList)⟩).span_id = true := by
  have h := c4_normalized_ids_valid fresh0
    ⟨"xyz".toList, "00f067aa0ba902b8".toList,
     some ("00f067aa0ba902b7".toList)⟩
    (by decide) (by decide) (by decide) (by decide)
  exact ⟨h.1, h.2.1⟩

/-- C6: the Codec leaves already-valid triples unchanged and is
idempotent: renormalising a normalised triple (with any later fresh
draws) changes nothing, provided the fresh ids used by the first pass
have the generator's valid shape. -/
theorem c6_codec_idempotent :
    (∀ (f : Fresh) (ids : RawIds),
        pyValidId ids.trace_id = true → pyValidId ids.span_id = true →
        (ids.parent_span_id = none ∨
         ∃ q, ids.parent_span_id = some q ∧ pyValidId q = true) →
        normalizeIds f ids = ids) ∧
    (∀ (f g : Fresh) (ids : RawIds),
        pyValidId f.freshTrace = true → pyValidId f.freshSpan = true →
        normalizeIds g (normalizeIds f ids) = normalizeIds f ids) := by
  constructor
  · intro f ids hvt hvs hp
    exact RawIds.ext' (normalizeIds_trace_of_valid hvt)
      (normalizeIds_span_of_valid hvs) (normalizeIds_parent_stable hp)
  · intro f g ids hft hfs
    have htr : pyValidId (normalizeIds f ids).trace_id = true ∨
        (normalizeIds f ids).trace_id = [] := by
      by_cases hv : pyValidId ids.trace_id = true
      · rw [normalizeIds_trace_of_valid hv]; exact Or.inl hv
      · by_cases hn : ids.trace_id = []
        · rw [normalizeIds_trace_of_nil hn]; exact Or.inr hn
        · rw [normalizeIds_trace_invalid hn (by simpa using hv)]
          exact Or.inl hft
    have hsp : pyValidId (normalizeIds f ids).span_id = true ∨
        (normalizeIds f ids).span_id = [] := by
      by_cases hv : pyValidId ids.span_id = true
      · rw [normalizeIds_span_of_valid hv]; exact Or.inl hv
      · by_cases hn : ids.span_id = []
        · rw [normalizeIds_span_of_nil hn]; exact Or.inr hn
        · rw [normalizeIds_span_invalid hn (by simpa using hv)]
          exact Or.inl hfs
    have hpar : (normalizeIds f ids).parent_span_id = none ∨
        ∃ q, (normalizeIds f ids).parent_span_id = some q ∧
          pyValidId q = true := by
      cases hq : ids.parent_span_id with
      | none => exact Or.inl (normalizeIds_parent_none f ids hq)
      | some q =>
        rw [normalizeIds_parent_eq f ids q hq]
        by_cases hv : pyValidId q = true
        · exact Or.inr ⟨q, by rw [if_pos hv], hv⟩
        · rw [if_neg hv]; exact Or.inl rfl
    exact RawIds.ext' (normalizeIds_trace_stable htr)
      (normalizeIds_span_stable hsp) (normalizeIds_parent_stable hpar)

/-- C6 witness: a valid triple is returned unchanged, and normalising an
(initially invalid) triple twice equals normalising it once. -/
theorem c6_witness :
    normalizeIds fresh0
      ⟨"4bf92f3577b34da6a3ce929d0e0e4736".toList,
       "00f067aa0ba902b8".toList, some ("00f067aa0ba902b7".toList)⟩
      = ⟨"4bf92f3577b34da6a3ce929d0e0e4736".toList,
         "00f067aa0ba902b8".toList, some ("00f067aa0ba902b7".toList)⟩ ∧
    normalizeIds fresh0 (normalizeIds fresh0
      ⟨"xyz".toList, "ab".toList, some ("zzz".toList)⟩)
      = normalizeIds fresh0 ⟨"xyz".toList, "ab".toList, some ("zzz".toList)⟩ := by
  constructor
  · exact c6_codec_idempotent.1 fresh0 _ (by decide) (by decide)
      (Or.inr ⟨"00f067aa0ba902b7".toList, rfl, by decide⟩)
  · exact c6_codec_idempotent.2 fresh0 fresh0 _ (by decide) (by decide)

/- Concrete lines for scenario claims. -/

/-- The exact input line of end-to-end scenario 1: note there is no
whitespace between the timestamp and the thread bracket. -/
def line1 : Str :=
  ("2024-01-15/10:30:00.123[thread-1][svc-a:4bf92f3577b34da6a3ce929d0e0e4736:00f067aa0ba902b7:00f067aa0ba902b8] INFO com.example.Worker - operation start").toList

/-- The scenario 1 line with the single space that the pattern's `\s+`
requires between the timestamp and the thread bracket. -/
def line1s : Str :=
  ("2024-01-15/10:30:00.123 [thread-1][svc-a:4bf92f3577b34da6a3ce929d0e0e4736:00f067aa0ba902b7:00f067aa0ba902b8] INFO com.example.Worker - operation start").toList

/-- C1 counterexample: the scenario's exact line does not match
`log_pattern` at all (the pattern demands `\s+` after the timestamp and
the line has none), so no span is produced; and even on the spaced
variant the derived span name is `Worker.process (1)` — the
`([a-zA-Z]+) operation` search finds no word before `operation` in
`operation start` — not the claimed `Worker.start (1)`. -/
theorem c1_counterexample :
    parse_log_line line1 = none ∧
    Option.map (fun r => (send_to_zipkin fresh0 r).span_name)
        (parse_log_line line1s)
      = some ("Worker.process (1)".toList) ∧
    ("Worker.process (1)".toList : Str) ≠ "Worker.start (1)".toList := by
  refine ⟨rfl, rfl, by decide⟩

/-- Projection equations for the span assembled by `send_to_zipkin`. -/
theorem send_to_zipkin_trace (f : Fresh) (r : LogRecord) :
    (send_to_zipkin f r).trace_id
      = (normalizeIds f ⟨r.trace_id, r.span_id, some r.parent_span_id⟩).trace_id :=
  rfl

theorem send_to_zipkin_span (f : Fresh) (r : LogRecord) :
    (send_to_zipkin f r).span_id
      = (normalizeIds f ⟨r.trace_id, r.span_id, some r.parent_span_id⟩).span_id :=
  rfl

theorem send_to_zipkin_parent (f : Fresh) (r : LogRecord) :
    (send_to_zipkin f r).parent_span_id
      = (normalizeIds f
          ⟨r.trace_id, r.span_id, some r.parent_span_id⟩).parent_span_id :=
  rfl

theorem send_to_zipkin_name (f : Fresh) (r : LogRecord) :
    (send_to_zipkin f r).span_name
      = span_name_of r.logger r.thread r.message :=
  rfl

theorem send_to_zipkin_tags (f : Fresh) (r : LogRecord) :
    (send_to_zipkin f r).tags = buildTags r :=
  rfl

/-- C1 (amended): with the required whitespace inserted after the
timestamp, the pipeline produces a span named `Worker.process (1)` whose
trace id is `4bf92f3577b34da6a3ce929d0e0e4736`, whose parent span id is
`00f067aa0ba902b7` (per the source's reading of group 5), and whose tags
include `level=INFO`. -/
theorem c1_scenario1 (f : Fresh) :
    ∃ r, parse_log_line line1s = some r ∧
      (send_to_zipkin f r).span_name = "Worker.process (1)".toList ∧
      (send_to_zipkin f r).trace_id
        = "4bf92f3577b34da6a3ce929d0e0e4736".toList ∧
      (send_to_zipkin f r).parent_span_id
        = some ("00f067aa0ba902b7".toList) ∧
      (send_to_zipkin f r).span_id = "00f067aa0ba902b8".toList ∧
      ("level".toList, "INFO".toList) ∈ (send_to_zipkin f r).tags := by
  refine ⟨⟨"2024-01-15/10:30:00.123".toList, "thread-1".toList,
    "svc-a".toList, "4bf92f3577b34da6a3ce929d0e0e4736".toList,
    "00f067aa0ba902b7".toList, "00f067aa0ba902b8".toList, "INFO".toList,
    "com.example.Worker".toList, "operation start".toList⟩,
    by decide, ?_, ?_, ?_, ?_, ?_⟩
  · rw [send_to_zipkin_name]
    decide
  · rw [send_to_zipkin_trace, normalizeIds_trace_of_valid (by decide)]
  · rw [send_to_zipkin_parent,
      normalizeIds_parent_eq f _ ("00f067aa0ba902b7".toList) rfl]
    decide
  · rw [send_to_zipkin_span, normalizeIds_span_of_valid (by decide)]
  · rw [send_to_zipkin_tags]
    simp [buildTags]

/-- A message of 256 identical characters, at the truncation threshold. -/
def longMsg : Str := List.replicate 256 'a'

set_option maxRecDepth 4000 in
/-- C5 counterexample: for a 256-character message the tag (first 253
characters plus `'...'`) has length 256 but is NOT a prefix of the
original message — it differs at index 253 — refuting the claim's
prefix clause. -/
theorem c5_counterexample :
    (messageTag longMsg).length = 256 ∧
    ¬ ∃ t, longMsg = messageTag longMsg ++ t := by
  refine ⟨by decide, ?_⟩
  rintro ⟨t, ht⟩
  have h1 : longMsg.length = (messageTag longMsg).length + t.length := by
    conv_lhs => rw [ht]
    rw [List.length_append]
  have h2 : (messageTag longMsg).length = 256 := by decide
  have h3 : longMsg.length = 256 := by decide
  have h4 : t.length = 0 := by omega
  have h5 : t = [] := List.eq_nil_of_length_eq_zero h4
  subst h5
  rw [List.append_nil] at ht
  exact absurd ht (by decide)

/-- C5 (amended): the span's `message` tag equals the full message when
it is shorter than 256 characters; otherwise the tag is the first 253
characters followed by the 3-character ellipsis, has length exactly 256,
and its first 253 characters are a prefix of the original message (the
full 256-character tag itself is not such a prefix). -/
theorem c5_message_tag (f : Fresh) (r : LogRecord) :
    List.lookup ("message".toList) (send_to_zipkin f r).tags
      = some (messageTag r.message) ∧
    (256 ≤ r.message.length →
      (messageTag r.message).length = 256 ∧
      messageTag r.message = r.message.take 253 ++ "...".toList ∧
      ∃ t, r.message = (messageTag r.message).take 253 ++ t) ∧
    (r.message.length < 256 → messageTag r.message = r.message) := by
  refine ⟨?_, ?_, ?_⟩
  · simp [send_to_zipkin, buildTags, List.lookup]
  · intro h
    have hnl : ¬ r.message.length < 256 := by omega
    have htag : messageTag r.message
        = r.message.take 253 ++ "...".toList := by
      rw [messageTag, if_neg hnl]
    refine ⟨?_, htag, ?_⟩
    · rw [htag, List.length_append, List.length_take]
      have hm : min 253 r.message.length = 253 := by omega
      rw [hm]
      decide
    · have hpr : (r.message.take 253 ++ ("...".toList)).take 253
          = r.message.take 253 := by
        generalize hgen : r.message.take 253 = k
        have hk : k.length = 253 := by
          rw [← hgen, List.length_take]; omega
        rw [← hk]
        exact List.take_left _ _
      rw [htag, hpr]
      exact ⟨r.message.drop 253, (List.take_append_drop 253 r.message).symm⟩
  · intro h
    rw [messageTag, if_pos h]

set_option maxRecDepth 4000 in
/-- C5 witness: the two regimes at concrete messages. -/
theorem c5_witness :
    (messageTag longMsg).length = 256 ∧
    messageTag longMsg = longMsg.take 253 ++ "...".toList ∧
    messageTag ("short".toList) = "short".toList := by
  have h := c5_message_tag fresh0
    { timestamp := [], thread := [], service_context := [], trace_id := [],
      parent_span_id := [], span_id := [], level := [], logger := [],
      message := longMsg }
  have h2 := c5_message_tag fresh0
    { timestamp := [], thread := [], service_context := [], trace_id := [],
      parent_span_id := [], span_id := [], level := [], logger := [],
      message := "short".toList }
  exact ⟨(h.2.1 (by decide)).1, (h.2.1 (by decide)).2.1,
    h2.2.2 (by decide)⟩

/-- A representative timestamp text for witnesses. -/
def ts0 : Str := "2024-01-15/10:30:00.123".toList

theorem tsShape_ts0 : TsShape ts0 :=
  ⟨"2024".toList, "01".toList, "15".toList, "10".toList, "30".toList,
   "00".toList, "123".toList, by decide, by decide, by decide, by decide,
   by decide, by decide, by decide, by decide, by decide⟩

/-- C7 (amended): every line whose second bracketed group consists of
exactly 2 or 3 colon-delimited segments (segments containing neither `:`
nor `]`) is rejected by the pattern: no record or span is produced and
the driver records one error for the line (the error counter is modelled
from spec section 4.5; the source driver only skips the line).  With
fewer than 2 segments the line can still match, because `[^:]+` may run
past `]` and take the missing colon-separated fields from later text —
see the counterexample. -/
theorem c7_short_context_rejected :
    (∀ u sp th c s rest (f : Fresh) (pr : PostResult), TsShape u →
      sp ≠ [] → (∀ x ∈ sp, isSpaceChar x = true) →
      th ≠ [] → (∀ x ∈ th, x ≠ ']') →
      (∀ x ∈ c, x ≠ ':') → (∀ x ∈ c, x ≠ ']') →
      (∀ x ∈ s, x ≠ ':') → (∀ x ∈ s, x ≠ ']') →
      matchLogLine (u ++ sp ++ '[' :: th ++ ']' :: '[' :: c ++ ':' :: s ++
        ']' :: rest) = none ∧
      runDriver f [(u ++ sp ++ '[' :: th ++ ']' :: '[' :: c ++ ':' :: s ++
        ']' :: rest, pr)] = ⟨0, 1⟩) ∧
    (∀ u sp th c s1 s2 rest (f : Fresh) (pr : PostResult), TsShape u →
      sp ≠ [] → (∀ x ∈ sp, isSpaceChar x = true) →
      th ≠ [] → (∀ x ∈ th, x ≠ ']') →
      (∀ x ∈ c, x ≠ ':') → (∀ x ∈ c, x ≠ ']') →
      (∀ x ∈ s1, x ≠ ':') → (∀ x ∈ s1, x ≠ ']') →
      (∀ x ∈ s2, x ≠ ':') → (∀ x ∈ s2, x ≠ ']') →
      matchLogLine (u ++ sp ++ '[' :: th ++ ']' :: '[' :: c ++ ':' :: s1 ++
        ':' :: s2 ++ ']' :: rest) = none ∧
      runDriver f [(u ++ sp ++ '[' :: th ++ ']' :: '[' :: c ++ ':' :: s1 ++
        ':' :: s2 ++ ']' :: rest, pr)] = ⟨0, 1⟩) := by
  constructor
  · intro u sp th c s rest f pr hts hspne hsp hthne hth hc hcr hs hsr
    have hcp := matchContext_2seg_none (z := rest) hc hs
    have hm := matchLogLine_ctx_none hts hspne hsp hthne hth hcp
    have hm' : matchLogLine (u ++ sp ++ '[' :: th ++ ']' :: '[' :: c ++
        ':' :: s ++ ']' :: rest) = none := by
      simpa only [List.cons_append, List.append_assoc] using hm
    refine ⟨hm', ?_⟩
    have hp : parse_log_line (u ++ sp ++ '[' :: th ++ ']' :: '[' :: c ++
        ':' :: s ++ ']' :: rest) = none := by
      rw [parse_log_line, hm']
    simp only [List.cons_append, List.append_assoc] at hp
    simp [runDriver, hp]
  · intro u sp th c s1 s2 rest f pr hts hspne hsp hthne hth hc hcr h1 h1r h2 h2r
    have hcp := matchContext_3seg_none (z := rest) hc h1 h2
    have hm := matchLogLine_ctx_none hts hspne hsp hthne hth hcp
    have hm' : matchLogLine (u ++ sp ++ '[' :: th ++ ']' :: '[' :: c ++
        ':' :: s1 ++ ':' :: s2 ++ ']' :: rest) = none := by
      simpa only [List.cons_append, List.append_assoc] using hm
    refine ⟨hm', ?_⟩
    have hp : parse_log_line (u ++ sp ++ '[' :: th ++ ']' :: '[' :: c ++
        ':' :: s1 ++ ':' :: s2 ++ ']' :: rest) = none := by
      rw [parse_log_line, hm']
    simp only [List.cons_append, List.append_assoc] at hp
    simp [runDriver, hp]

/-- A line whose second bracketed group `[ab]` has a single segment, yet
which matches the pattern: `[^:]+` runs past the closing bracket and
captures `ab] x` as the service context, taking the id fields from the
text after the group. -/
def advLine : Str :=
  ("2024-01-15/10:30:00.123 [t][ab] x:y:z:w] INFO foo - msg").toList

/-- C7 counterexample: a line whose second bracketed group has one
colon-delimited segment — fewer than 4 — is accepted by the pattern, so
the claim's blanket `fewer than 4 segments implies NoMatch` is false. -/
theorem c7_counterexample : (matchLogLine advLine).isSome = true := by rfl

/-- C7 witness: a concrete 2-segment line (scenario 2's shape) is
rejected with one counted error and no span. -/
theorem c7_witness :
    matchLogLine (ts0 ++ " ".toList ++ '[' :: "t".toList ++ ']' :: '[' ::
      "svc".toList ++ ':' :: "abc".toList ++ ']' ::
      (" INFO foo - msg").toList) = none ∧
    runDriver fresh0 [(ts0 ++ " ".toList ++ '[' :: "t".toList ++ ']' ::
      '[' :: "svc".toList ++ ':' :: "abc".toList ++ ']' ::
      (" INFO foo - msg").toList, PostResult.networkError)] = ⟨0, 1⟩ := by
  exact c7_short_context_rejected.1 ts0 (" ".toList) ("t".toList)
    ("svc".toList) ("abc".toList) ((" INFO foo - msg").toList) fresh0
    PostResult.networkError tsShape_ts0 (by decide) (by decide) (by decide)
    (by decide) (by decide) (by decide) (by decide) (by decide)

/-- C8 (amended): on a 4xx/5xx response or a network error the transport
handler logs the failure, but it swallows the exception and returns
normally — no failure value reaches the caller and nothing is retried
(the model's `send` consumes exactly one post attempt); the driver
continues to the following lines whatever the transport outcome, and the
failure is not reflected in any counter. -/
theorem c8_transport_failure (n : Nat) (h4 : 400 ≤ n) (h5 : n ≤ 599) :
    (HttpTransportHandler.send (.response n)).errorLogged = true ∧
    (HttpTransportHandler.send .networkError).errorLogged = true ∧
    (∀ pr, (HttpTransportHandler.send pr).raised = false ∧
           (HttpTransportHandler.send pr).failureReturned = false) ∧
    (∀ (f : Fresh) line pr rest,
      runDriver f ((line, pr) :: rest)
        = ⟨(runDriver f [(line, pr)]).spansEmitted
             + (runDriver f rest).spansEmitted,
           (runDriver f [(line, pr)]).errors + (runDriver f rest).errors⟩) := by
  refine ⟨?_, rfl, ?_, ?_⟩
  · simp [HttpTransportHandler.send, h4, h5]
  · intro pr
    cases pr with
    | response m =>
      by_cases hm : 400 ≤ m ∧ m ≤ 599 <;>
        simp [HttpTransportHandler.send, hm]
    | networkError => exact ⟨rfl, rfl⟩
  · intro f line pr rest
    cases hp : parse_log_line line <;>
      simp [runDriver, hp, RunSummary.mk.injEq] <;> omega

/-- C8 counterexample: on HTTP 500 `send` does NOT return a failure value
to its caller — the exception from `raise_for_status` is caught and only
logged, and the method falls off the end returning `None`. -/
theorem c8_counterexample :
    (HttpTransportHandler.send (.response 500)).failureReturned = false := by
  decide

/-- C8 witness: the amended behaviour at status 500 with a following
line. -/
theorem c8_witness :
    (HttpTransportHandler.send (.response 500)).errorLogged = true ∧
    (HttpTransportHandler.send (.response 500)).raised = false ∧
    runDriver fresh0 [(line1, PostResult.response 500), (line1, PostResult.response 200)]
      = ⟨(runDriver fresh0 [(line1, PostResult.response 500)]).spansEmitted
           + (runDriver fresh0 [(line1, PostResult.response 200)]).spansEmitted,
         (runDriver fresh0 [(line1, PostResult.response 500)]).errors
           + (runDriver fresh0 [(line1, PostResult.response 200)]).errors⟩ := by
  have h := c8_transport_failure 500 (by decide) (by decide)
  exact ⟨h.1, (h.2.2.1 (PostResult.response 500)).1,
    h.2.2.2 fresh0 line1 (PostResult.response 500)
      [(line1, PostResult.response 200)]⟩

/-- A line whose first id segment is the single character `é`: outside
`[A-Za-z0-9_]`, but inside Python's Unicode `\w`, so the pattern accepts
it (checked against CPython's `re`). -/
def eLine : Str :=
  ("2024-01-15/10:30:00.123 [t][svc:é:00f067aa0ba902b7:00f067aa0ba902b8] INFO foo - msg").toList

/-- C9 counterexample: the pattern is compiled without `re.ASCII`, so its
`\w` is the Unicode word class, not `[A-Za-z0-9_]`.  A line whose trace-id
segment is `é` — a character outside `[A-Za-z0-9_]` — is parsed rather
than rejected, and the id `é` reaches identifier normalization as the
record's trace id, refuting both halves of the claim as stated. -/
theorem c9_counterexample :
    inAsciiWordClass 'é' = false ∧
    ∃ rec, parse_log_line eLine = some rec ∧ rec.trace_id = "é".toList := by
  exact ⟨by decide, ⟨_, rfl, rfl⟩⟩

/-- C9 (amended): the rejection class is the pattern's `\w`, not
`[A-Za-z0-9_]`.  If any of the three id segments of a well-bracketed
4-segment context group (segments of characters below 0x100, where the
model of `\w` is exact) contains a character outside the word class
`\w` — for example a hyphen — or is empty, the whole line is rejected;
and conversely every id string in a parsed record is a non-empty run of
`\w` word characters, which need not all lie in `[A-Za-z0-9_]` (the
trace id `é` of the counterexample line is accepted). -/
theorem c9_word_char_ids :
    (∀ u sp th c s1 s2 s3 rest, TsShape u →
      sp ≠ [] → (∀ x ∈ sp, isSpaceChar x = true) →
      th ≠ [] → (∀ x ∈ th, x ≠ ']') →
      (∀ x ∈ c, x ≠ ':') → (∀ x ∈ c, x ≠ ']') →
      (∀ x ∈ s1, x ≠ ':') → (∀ x ∈ s1, x ≠ ']') →
      (∀ x ∈ s2, x ≠ ':') → (∀ x ∈ s2, x ≠ ']') →
      (∀ x ∈ s3, x ≠ ':') → (∀ x ∈ s3, x ≠ ']') →
      (∀ x ∈ s1 ++ s2 ++ s3, x.toNat < 256) →
      ((s1 = [] ∨ ∃ x ∈ s1, isWordChar x = false) ∨
       (s2 = [] ∨ ∃ x ∈ s2, isWordChar x = false) ∨
       (s3 = [] ∨ ∃ x ∈ s3, isWordChar x = false)) →
      matchLogLine (u ++ sp ++ '[' :: th ++ ']' :: '[' :: c ++ ':' :: s1 ++
        ':' :: s2 ++ ':' :: s3 ++ ']' :: rest) = none) ∧
    (∀ l rec, parse_log_line l = some rec →
      (rec.trace_id ≠ [] ∧ ∀ x ∈ rec.trace_id, isWordChar x = true) ∧
      (rec.parent_span_id ≠ [] ∧
        ∀ x ∈ rec.parent_span_id, isWordChar x = true) ∧
      (rec.span_id ≠ [] ∧ ∀ x ∈ rec.span_id, isWordChar x = true)) := by
  constructor
  · intro u sp th c s1 s2 s3 rest hts hspne hsp hthne hth hc hcr
      h1 h1r h2 h2r h3 h3r hascii hbad
    have hcp := matchContext_4seg_bad_none (z := rest) hc h1 h2 h3r hbad
    have hm := matchLogLine_ctx_none hts hspne hsp hthne hth hcp
    simpa only [List.cons_append, List.append_assoc] using hm
  · intro l rec h
    exact parse_log_line_sound h

/-- C9 witness: a hyphen inside the first id segment rejects the line;
the parsed scenario line's ids are non-empty word-character runs. -/
theorem c9_witness :
    matchLogLine (ts0 ++ " ".toList ++ '[' :: "t".toList ++ ']' :: '[' ::
      "svc".toList ++ ':' :: "ab-c".toList ++ ':' :: "def0".toList ++ ':' ::
      "0123".toList ++ ']' :: (" INFO foo - msg").toList) = none ∧
    ∃ rec, parse_log_line line1s = some rec ∧ rec.trace_id ≠ [] ∧
      ∀ x ∈ rec.trace_id, isWordChar x = true := by
  constructor
  · exact c9_word_char_ids.1 ts0 (" ".toList) ("t".toList) ("svc".toList)
      ("ab-c".toList) ("def0".toList) ("0123".toList)
      ((" INFO foo - msg").toList) tsShape_ts0 (by decide) (by decide)
      (by decide) (by decide) (by decide) (by decide) (by decide) (by decide)
      (by decide) (by decide) (by decide) (by decide) (by decide)
      (Or.inl (Or.inr ⟨'-', by decide, by decide⟩))
  · refine ⟨_, rfl, ?_, ?_⟩
    · exact (c9_word_char_ids.2 line1s _ rfl).1.1
    · exact (c9_word_char_ids.2 line1s _ rfl).1.2

/-- C10: the final spans-emitted count equals exactly the number of lines
for which parsing produced a record — the counter is incremented for
every parsed line regardless of the transport outcome, which never
appears in the count. -/
theorem c10_span_count (f : Fresh) :
    (∀ inputs : List (Str × PostResult),
      (runDriver f inputs).spansEmitted
        = (inputs.filter (fun q => (parse_log_line q.1).isSome)).length) ∧
    (∀ line p q rest,
      runDriver f ((line, p) :: rest) = runDriver f ((line, q) :: rest)) := by
  constructor
  · intro inputs
    induction inputs with
    | nil => rfl
    | cons a rest ih =>
      rcases a with ⟨line, pr⟩
      cases hp : parse_log_line line <;>
        simp [runDriver, hp, List.filter_cons, ih]
  · intro line p q rest
    cases hp : parse_log_line line <;> simp [runDriver, hp]

end ZipkinLog
